import Mathlib

/-!
Shallow embedding of the core of the `live-trading-engine` repository
(matching engine, order book, user portfolios, statistics collector,
bounded MPSC queue), translated from the C++ sources:

* `src/core/order.cpp` / `include/trading/core/order.hpp`
* `src/core/orderbook.cpp`
* `src/core/user.cpp`
* `src/core/matching_engine.cpp`
* `src/statistics/statistics_collector.cpp`
* `include/trading/utils/concurrent_queue.hpp`

Machine `double` values are modelled as `ℚ` (exact arithmetic), except for
the volatility update whose `std::sqrt` is modelled over `ℝ` with
`Real.sqrt`.  Wall-clock timestamps are omitted (they carry no logical
content for the verified properties).  Stateful C++ methods become pure
functions that return the updated state.
-/

namespace Trading

/-- `OrderType` from `order.hpp`. -/
inductive OrderType
  | LIMIT
  | MARKET
  | STOP
deriving DecidableEq

/-- `OrderSide` from `order.hpp`. -/
inductive OrderSide
  | BUY
  | SELL
deriving DecidableEq

/-- `OrderStatus` from `order.hpp`. -/
inductive OrderStatus
  | PENDING
  | PARTIALLY_FILLED
  | FILLED
  | REJECTED
  | CANCELLED
deriving DecidableEq

/-- `Order` from `order.hpp`.  `quantity` is the remaining quantity: the
matcher decrements it in place through the shared pointer held by the book. -/
structure Order where
  id : String
  userId : String
  symbol : String
  otype : OrderType
  side : OrderSide
  quantity : ℚ
  price : ℚ
  filled_quantity : ℚ
  status : OrderStatus
deriving DecidableEq

/-- `Trade` from `matching_engine.hpp` (plus the `buy_user_id` /
`sell_user_id` fields that `matching_engine.cpp` populates).  The C++
`trade_id` is the decimal string of the engine counter; we keep the counter
itself.  The wall-clock `timestamp` field is omitted. -/
structure Trade where
  trade_id : Nat
  buy_order_id : String
  sell_order_id : String
  buy_user_id : String
  sell_user_id : String
  symbol : String
  quantity : ℚ
  price : ℚ
deriving DecidableEq

/-- `Position` from `user.hpp`: value-initialized to `{symbol := "", 0, 0}`
when `symbol_to_position_[symbol]` default-inserts. -/
structure Position where
  symbol : String
  quantity : ℚ
  average_price : ℚ
deriving DecidableEq

/-- Association-list lookup standing in for `std::map`/`std::unordered_map`
`find` (the key order of the C++ maps is irrelevant to lookups). -/
def lookupAssoc {β : Type} : List (String × β) → String → Option β
  | [], _ => none
  | (k, v) :: rest, key => if k = key then some v else lookupAssoc rest key

/-- Association-list insert-or-assign standing in for `map[key] = value`. -/
def setAssoc {β : Type} : List (String × β) → String → β → List (String × β)
  | [], key, v => [(key, v)]
  | (k, w) :: rest, key, v =>
    if k = key then (key, v) :: rest else (k, w) :: setAssoc rest key v

/-- `User` from `user.hpp`: cash, realized P&L and the symbol→position map. -/
structure User where
  user_id : String
  cash_balance : ℚ
  realized_pnl : ℚ
  positions : List (String × Position)
deriving DecidableEq

/-- The `1e-12` oversell / flat-position tolerance from `user.cpp`. -/
def eps : ℚ := 1 / 1000000000000

/-- `User::applyExecution` from `user.cpp`, lines 36-104, translated
branch for branch.  Returns the C++ `bool` result together with the updated
user (the input user unchanged on every `return false` path except the
unreachable `new_quantity ≤ 0` guard, which in the C++ leaves behind the
map slot inserted just before the check — mirrored here). -/
def applyExecution (u : User) (side : OrderSide) (symbol : String)
    (executed_quantity executed_price fee : ℚ) : Bool × User :=
  if executed_quantity ≤ 0 ∨ executed_price < 0 ∨ fee < 0 then (false, u)
  else
    let gross_amount := executed_quantity * executed_price
    match side with
    | OrderSide.BUY =>
      let total_cost := gross_amount + fee
      if total_cost > u.cash_balance then (false, u)
      else
        let positions1 :=
          match lookupAssoc u.positions symbol with
          | some _ => u.positions
          | none => setAssoc u.positions symbol ⟨symbol, 0, 0⟩
        let pos := (lookupAssoc positions1 symbol).getD ⟨symbol, 0, 0⟩
        let new_quantity := pos.quantity + executed_quantity
        if new_quantity ≤ 0 then (false, { u with positions := positions1 })
        else
          let new_cost_basis := pos.average_price * pos.quantity + gross_amount
          let pos' := { pos with quantity := new_quantity,
                                 average_price := new_cost_basis / new_quantity }
          (true, { u with positions := setAssoc positions1 symbol pos',
                          cash_balance := u.cash_balance - total_cost })
    | OrderSide.SELL =>
      match lookupAssoc u.positions symbol with
      | none => (false, u)
      | some pos =>
        if executed_quantity > pos.quantity + eps then (false, u)
        else
          let cost_basis_of_sold := pos.average_price * executed_quantity
          let proceeds := gross_amount - fee
          let pnl := proceeds - cost_basis_of_sold
          let q1 := pos.quantity - executed_quantity
          let pos' :=
            if q1 ≤ eps then { pos with quantity := 0, average_price := 0 }
            else { pos with quantity := q1 }
          (true, { u with positions := setAssoc u.positions symbol pos',
                          realized_pnl := u.realized_pnl + pnl,
                          cash_balance := u.cash_balance + proceeds })

/-- `OrderBook` from `orderbook.hpp`: `buy_orders_` is a
`std::map<double, vector<Order>, greater>` (keys strictly descending),
`sell_orders_` a `std::map<double, vector<Order>>` (keys strictly
ascending); each level is a FIFO list. -/
structure OrderBook where
  symbol : String
  buy_orders : List (ℚ × List Order)
  sell_orders : List (ℚ × List Order)
deriving DecidableEq

/-- Sorted insert for the descending buy-side map. -/
def insertLevelDesc (p : ℚ) (o : Order) : List (ℚ × List Order) → List (ℚ × List Order)
  | [] => [(p, [o])]
  | (q, os) :: rest =>
    if p > q then (p, [o]) :: (q, os) :: rest
    else if p = q then (q, os ++ [o]) :: rest
    else (q, os) :: insertLevelDesc p o rest

/-- Sorted insert for the ascending sell-side map. -/
def insertLevelAsc (p : ℚ) (o : Order) : List (ℚ × List Order) → List (ℚ × List Order)
  | [] => [(p, [o])]
  | (q, os) :: rest =>
    if p < q then (p, [o]) :: (q, os) :: rest
    else if p = q then (q, os ++ [o]) :: rest
    else (q, os) :: insertLevelAsc p o rest

/-- `OrderBook::addOrder` from `orderbook.cpp`, lines 15-37 (the `nullptr`
check has no counterpart for a value-typed order).  Sets the order status
to PENDING and appends it to the FIFO at its price on its side. -/
def addOrder (book : OrderBook) (order : Order) : Bool × OrderBook :=
  if order.symbol ≠ book.symbol then (false, book)
  else
    let o := { order with status := OrderStatus.PENDING }
    match order.side with
    | OrderSide.BUY =>
      (true, { book with buy_orders := insertLevelDesc order.price o book.buy_orders })
    | OrderSide.SELL =>
      (true, { book with sell_orders := insertLevelAsc order.price o book.sell_orders })

/-- `OrderBook::removeOrder` from `orderbook.cpp`, lines 39-43: a TODO stub
that ignores its argument and returns `false` without touching the book. -/
def removeOrder (book : OrderBook) (order_id : String) : Bool × OrderBook :=
  (false, book)

/-- `OrderBook::getBestBid`: first key of the descending buy map, `0.0` if
the map is empty (`orderbook.cpp`, lines 45-52). -/
def getBestBid (book : OrderBook) : ℚ :=
  match book.buy_orders with
  | [] => 0
  | (p, _) :: _ => p

/-- `OrderBook::getBestAsk`: first key of the ascending sell map, `0.0` if
the map is empty (`orderbook.cpp`, lines 54-61). -/
def getBestAsk (book : OrderBook) : ℚ :=
  match book.sell_orders with
  | [] => 0
  | (p, _) :: _ => p

/-- Flattens a side's levels in map order, as `getBuyOrders` /
`getSellOrders` do (`orderbook.cpp`, lines 67-81). -/
def flattenOrders (levels : List (ℚ × List Order)) : List Order :=
  (levels.map Prod.snd).flatten

/-- The price keys of a side's level map. -/
def levelPrices (levels : List (ℚ × List Order)) : List ℚ :=
  levels.map Prod.fst

/-- `MatchingEngine` per-engine state (`matching_engine.hpp` / `.cpp`):
user registry, `total_trades_`, `total_volume_`, `next_trade_id_`
(starting at 1).  `callback_log` records, in order, the trades handed to
`trade_callback_` when a callback is set.  The `orderbooks_` registry is
orthogonal to the verified claims (`matchOrder` receives its book by
reference) and is omitted. -/
structure Engine where
  users : List (String × User)
  total_trades : Nat
  total_volume : ℚ
  next_trade_id : Nat
  callback_log : List Trade
deriving DecidableEq

/-- `MatchingEngine::getOrCreateUser` (`matching_engine.cpp`, lines
197-205): look up the user, else construct `User(user_id, starting_cash)`
and register it.  The declaration carrying the default `starting_cash = 0`
is not under `src/` (the header predates the user registry); the spec fixes
the source default at 0, and call sites below pass 0 explicitly. -/
def getOrCreateUser (e : Engine) (user_id : String) (starting_cash : ℚ) :
    User × Engine :=
  match lookupAssoc e.users user_id with
  | some u => (u, e)
  | none =>
    let u : User := ⟨user_id, starting_cash, 0, []⟩
    (u, { e with users := setAssoc e.users user_id u })

/-- Writes back a (shared, in C++ mutated-in-place) user into the registry. -/
def setUser (e : Engine) (user_id : String) (u : User) : Engine :=
  { e with users := setAssoc e.users user_id u }

/-- `MatchingEngine::updateUserPortfolios` (`matching_engine.cpp`, lines
207-221): get-or-create both users (default starting cash 0), apply the BUY
leg to the buyer, then the SELL leg to the seller, and return the
conjunction of the two leg results.  The two legs are applied
unconditionally and independently; nothing is rolled back when one fails. -/
def updateUserPortfolios (e : Engine) (trade : Trade) (fee : ℚ) : Bool × Engine :=
  let br := getOrCreateUser e trade.buy_user_id 0
  let buyLeg := applyExecution br.1 OrderSide.BUY trade.symbol trade.quantity trade.price fee
  let e2 := setUser br.2 trade.buy_user_id buyLeg.2
  let sr := getOrCreateUser e2 trade.sell_user_id 0
  let sellLeg := applyExecution sr.1 OrderSide.SELL trade.symbol trade.quantity trade.price fee
  let e3 := setUser sr.2 trade.sell_user_id sellLeg.2
  (buyLeg.1 && sellLeg.1, e3)

/-- `MatchingEngine::createTrade` (`matching_engine.cpp`, lines 159-175):
builds the trade from the two sides and increments `next_trade_id_`. -/
def createTrade (e : Engine) (buy_order sell_order : Order)
    (quantity price : ℚ) : Trade × Engine :=
  (⟨e.next_trade_id, buy_order.id, sell_order.id, buy_order.userId,
    sell_order.userId, buy_order.symbol, quantity, price⟩,
   { e with next_trade_id := e.next_trade_id + 1 })

/-- The matchability test both match loops use: resting price `≤` the
comparison price for an incoming BUY, `≥` for an incoming SELL
(`matching_engine.cpp`, lines 59-62 and 117-120). -/
def canMatch (side : OrderSide) (px : ℚ) (resting : Order) : Bool :=
  match side with
  | OrderSide.BUY => resting.price ≤ px
  | OrderSide.SELL => resting.price ≥ px

/-- One pass of the match loop over a level's FIFO orders
(`matching_engine.cpp`, lines 53-81 and 111-139).  `px` is the single
comparison-and-fill price: the captured top-of-book for a market order, the
incoming limit price for a limit order — the C++ uses the same variable in
the matchability test and in `createTrade`.  Resting quantities are
decremented through the shared pointer (visible in the book); the
subsequent `removeOrder` call on a fully-filled resting order is the TODO
stub and removes nothing, so the order stays at its level with quantity 0.
Returns (trades, updated level orders, remaining incoming quantity,
engine with `next_trade_id_` advanced). -/
def fillOrders (order : Order) (px : ℚ) :
    List Order → ℚ → Engine → List Trade × List Order × ℚ × Engine
  | [], remaining, e => ([], [], remaining, e)
  | o :: rest, remaining, e =>
    if remaining ≤ 0 then ([], o :: rest, remaining, e)
    else if canMatch order.side px o then
      -- `std::min(remaining_quantity, opposite_order->getQuantity())`,
      -- written out as its defining conditional
      let trade_quantity := if o.quantity < remaining then o.quantity else remaining
      let buy_order := if order.side = OrderSide.BUY then order else o
      let sell_order := if order.side = OrderSide.SELL then order else o
      let ct := createTrade e buy_order sell_order trade_quantity px
      let o' := { o with quantity := o.quantity - trade_quantity }
      let res := fillOrders order px rest (remaining - trade_quantity) ct.2
      (ct.1 :: res.1, o' :: res.2.1, res.2.2.1, res.2.2.2)
    else
      let res := fillOrders order px rest remaining e
      (res.1, o :: res.2.1, res.2.2.1, res.2.2.2)

/-- The match loop over the whole opposite side.  The C++ iterates the
flattened snapshot `getSellOrders()` / `getBuyOrders()`; since that
snapshot lists the levels in map order and the level structure never
changes during the walk (`removeOrder` is a no-op), iterating level by
level is the same single pass. -/
def fillLevels (order : Order) (px : ℚ) :
    List (ℚ × List Order) → ℚ → Engine →
    List Trade × List (ℚ × List Order) × ℚ × Engine
  | [], remaining, e => ([], [], remaining, e)
  | (p, os) :: rest, remaining, e =>
    let r1 := fillOrders order px os remaining e
    let r2 := fillLevels order px rest r1.2.2.1 r1.2.2.2
    (r1.1 ++ r2.1, (p, r1.2.1) :: r2.2.1, r2.2.2.1, r2.2.2.2)

/-- The per-trade post-loop side effects (`matching_engine.cpp`, lines
85-95 and 143-153): accumulate `total_volume_`, update both portfolios
with `fee = 0` (the spec-documented source default for the omitted header
declaration), then hand the trade to the callback. -/
def applyTradeSideEffects (e : Engine) (t : Trade) : Engine :=
  let e1 := { e with total_volume := e.total_volume + t.quantity * t.price }
  let r := updateUserPortfolios e1 t 0
  { r.2 with callback_log := r.2.callback_log ++ [t] }

/-- The post-loop block shared by both match functions: `total_trades_ +=
trades.size()` followed by the per-trade side effects in trade order. -/
def postFill (e : Engine) (trades : List Trade) : Engine :=
  trades.foldl applyTradeSideEffects
    { e with total_trades := e.total_trades + trades.length }

/-- The best-opposite top-of-book price `matchMarketOrder` captures once
at entry (`matching_engine.cpp`, lines 46-47): `getBestAsk` for a BUY,
`getBestBid` for a SELL. -/
def capturedPrice (order : Order) (book : OrderBook) : ℚ :=
  if order.side = OrderSide.BUY then getBestAsk book else getBestBid book

/-- The opposite side both match functions walk (`matching_engine.cpp`,
lines 42-43 and 104-105): sell levels for a BUY, buy levels for a SELL. -/
def oppositeSide (order : Order) (book : OrderBook) : List (ℚ × List Order) :=
  if order.side = OrderSide.BUY then book.sell_orders else book.buy_orders

/-- `MatchingEngine::matchMarketOrder` (`matching_engine.cpp`, lines
39-99): capture the best opposite top-of-book once at entry, walk the
opposite side filling at that captured price, then run the post-loop
side effects.  Returns (trades, updated book, updated engine). -/
def matchMarketOrder (order : Order) (book : OrderBook) (e : Engine) :
    List Trade × OrderBook × Engine :=
  let r := fillLevels order (capturedPrice order book) (oppositeSide order book)
    order.quantity e
  let book' :=
    if order.side = OrderSide.BUY then { book with sell_orders := r.2.1 }
    else { book with buy_orders := r.2.1 }
  (r.1, book', postFill r.2.2.2 r.1)

/-- `MatchingEngine::matchLimitOrder` (`matching_engine.cpp`, lines
101-157): identical walk, but the comparison-and-fill price is the
incoming order's limit price. -/
def matchLimitOrder (order : Order) (book : OrderBook) (e : Engine) :
    List Trade × OrderBook × Engine :=
  let r := fillLevels order order.price (oppositeSide order book) order.quantity e
  let book' :=
    if order.side = OrderSide.BUY then { book with sell_orders := r.2.1 }
    else { book with buy_orders := r.2.1 }
  (r.1, book', postFill r.2.2.2 r.1)

/-- `MatchingEngine::matchOrder` (`matching_engine.cpp`, lines 14-25):
dispatch on the order type; any type other than MARKET and LIMIT falls
through to an empty trade vector with no state change. -/
def matchOrder (order : Order) (book : OrderBook) (e : Engine) :
    List Trade × OrderBook × Engine :=
  if order.otype = OrderType.MARKET then matchMarketOrder order book e
  else if order.otype = OrderType.LIMIT then matchLimitOrder order book e
  else ([], book, e)

/-- `StatisticsCollector::updateVolatility`
(`statistics_collector.cpp`, lines 262-284), acting on the stored
`bucket.volatility` value for one timeframe: with `α = 0.1` and
`r = (current_price − previous_price) / previous_price`, the code writes
`volatility := r²` when the stored value is `≤ 0` (bootstrap), else
`volatility := α·r² + (1−α)·volatility`, and then replaces `volatility`
with its square root.  Note that the value blended by the `(1−α)` term is
the previously *stored* value — which, being the result of the previous
call, is already a square root. -/
noncomputable def updateVolatility (volatility current_price previous_price : ℝ) : ℝ :=
  let return_rate := (current_price - previous_price) / previous_price
  let squared_return := return_rate * return_rate
  if volatility ≤ 0 then Real.sqrt squared_return
  else Real.sqrt (0.1 * squared_return + (1 - 0.1) * volatility)

/-- The volatility recursion the spec states (§4.10 and the glossary), for
comparison with `updateVolatility`: `v² = α·r² + (1−α)·v²_prev` where
`v_prev` is the previously stored volatility (a standard deviation, so its
*square* enters the blend), stored as `√v²`; bootstrap from `r²` when the
prior volatility is 0. -/
noncomputable def claimedVolatility (volatility current_price previous_price : ℝ) : ℝ :=
  let return_rate := (current_price - previous_price) / previous_price
  let squared_return := return_rate * return_rate
  if volatility = 0 then Real.sqrt squared_return
  else Real.sqrt (0.1 * squared_return + (1 - 0.1) * (volatility * volatility))

/-- A trade event as submitted to the statistics collector
(`statistics_collector.hpp`); the timestamp is omitted. -/
structure TradeEvent where
  symbol : String
  price : ℚ
  quantity : ℚ
deriving DecidableEq

/-- `roundUpToPowerOfTwo` from `concurrent_queue.hpp`, lines 129-139: the
`size_t` bit-smearing trick, with the 64-bit wraparound of `v--` and `v++`
made explicit. -/
def roundUpToPowerOfTwo (v0 : Nat) : Nat :=
  let m := 2 ^ 64
  let v := (v0 + m - 1) % m
  let v := v ||| (v >>> 1)
  let v := v ||| (v >>> 2)
  let v := v ||| (v >>> 4)
  let v := v ||| (v >>> 8)
  let v := v ||| (v >>> 16)
  let v := v ||| (v >>> 32)
  (v + 1) % m

/-- `trading::utils::ConcurrentQueue<T>`: a bounded ring of slots, each a
(sequence counter, storage) pair, plus the producer and consumer
positions. -/
structure CQueue (α : Type) where
  capacity : Nat
  slots : List (Nat × Option α)
  enqueue_pos : Nat
  dequeue_pos : Nat
deriving DecidableEq

/-- The `ConcurrentQueue` constructor (`concurrent_queue.hpp`, lines
18-32): reject capacity 0 (the C++ throws `invalid_argument`), round the
capacity up to a power of two, and seed slot `i` with sequence `i`. -/
def mkCQueue (α : Type) (capacity : Nat) : Option (CQueue α) :=
  if capacity = 0 then none
  else
    let c := roundUpToPowerOfTwo capacity
    some ⟨c, (List.range c).map (fun i => (i, none)), 0, 0⟩

/-- `ConcurrentQueue::enqueue` (`concurrent_queue.hpp`, lines 52-74) as a
sequential step.  The producer claims position `pos` (`fetch_add`), indexes
slot `pos & (capacity−1)`, and may write only when the slot's sequence
equals `pos`; otherwise the C++ producer `wait`s on the slot's sequence —
with no concurrent consumer the call does not return, which this model
renders as `none`.  There is no code path that returns an error or throws
when the queue is full. -/
def enqueueStep {α : Type} (q : CQueue α) (value : α) : Option (CQueue α) :=
  let pos := q.enqueue_pos
  let idx := pos &&& (q.capacity - 1)
  match q.slots.get? idx with
  | none => none
  | some slot =>
    if slot.1 = pos then
      some { q with slots := q.slots.set idx (pos + 1, some value),
                    enqueue_pos := pos + 1 }
    else none

/-- `ConcurrentQueue::try_dequeue` (`concurrent_queue.hpp`, lines 77-104):
non-blocking; a miss (`none`) when the slot at the dequeue position has not
been published.  On success the slot reopens with sequence
`pos + capacity`. -/
def tryDequeue {α : Type} (q : CQueue α) : Option (α × CQueue α) :=
  let pos := q.dequeue_pos
  let idx := pos &&& (q.capacity - 1)
  match q.slots.get? idx with
  | none => none
  | some slot =>
    if slot.1 = pos + 1 then
      match slot.2 with
      | none => none
      | some v =>
        some (v, { q with slots := q.slots.set idx (pos + q.capacity, none),
                          dequeue_pos := pos + 1 })
    else none

/-- The statistics collector state relevant to trade submission
(`statistics_collector.cpp`): the `config_.enabled` flag, the `running_`
flag, the bounded trade queue, and the dropped-trade counter. -/
structure StatsCollector where
  enabled : Bool
  running : Bool
  trade_queue : CQueue TradeEvent
  total_trades_dropped : Nat
deriving DecidableEq

/-- `StatisticsCollector::submitTradeEvent` (`statistics_collector.cpp`,
lines 74-87): return `false` when disabled or not running; otherwise
`enqueue` and return `true`.  The `catch` branch (drop counter increment +
`false`) fires only when an exception escapes `enqueue` — `enqueue` never
throws on a full queue, it waits on the slot — so a full queue makes the
call block (`none`), not return.  `submitTrade` converts a `core::Trade`
and forwards to this function. -/
def submitTradeEvent (s : StatsCollector) (event : TradeEvent) :
    Option (Bool × StatsCollector) :=
  if ¬s.enabled ∨ ¬s.running then some (false, s)
  else
    match enqueueStep s.trade_queue event with
    | some q' => some (true, { s with trade_queue := q' })
    | none => none

/-! ## Concrete states used by the counterexample and evaluation theorems -/

/-- A fresh engine, as constructed by `MatchingEngine()`. -/
def e0 : Engine := ⟨[], 0, 0, 1, []⟩

/-- A resting limit SELL of 100 @ 50 by user `u2`. -/
def s1 : Order :=
  ⟨"S1", "u2", "AAPL", OrderType.LIMIT, OrderSide.SELL, 100, 50, 0, OrderStatus.PENDING⟩

/-- An incoming market BUY of 100 by user `u1` (market orders carry price 0). -/
def mBuy : Order :=
  ⟨"B1", "u1", "AAPL", OrderType.MARKET, OrderSide.BUY, 100, 0, 0, OrderStatus.PENDING⟩

/-- A book whose only resting order is `s1` at sell level 50. -/
def bk1 : OrderBook := ⟨"AAPL", [], [(50, [s1])]⟩

/-- A resting SELL with price 0 — exactly what a market SELL order becomes
when the ingress pipeline `addOrder`s it before matching (market orders
store price 0 and `addOrder` does not validate the price). -/
def zeroAsk : Order :=
  ⟨"Z1", "u9", "AAPL", OrderType.LIMIT, OrderSide.SELL, 1, 0, 0, OrderStatus.PENDING⟩

/-- A book whose sell side holds only `zeroAsk`, so `getBestAsk` is 0 with a
non-empty opposite side. -/
def bkZero : OrderBook := ⟨"AAPL", [], [(0, [zeroAsk])]⟩

/-- An incoming market BUY of 1 by user `u1`. -/
def mBuy1 : Order :=
  ⟨"B2", "u1", "AAPL", OrderType.MARKET, OrderSide.BUY, 1, 0, 0, OrderStatus.PENDING⟩

/-- An incoming STOP order (unsupported by `matchOrder`). -/
def stop1 : Order :=
  ⟨"T1", "u1", "AAPL", OrderType.STOP, OrderSide.BUY, 10, 44, 0, OrderStatus.PENDING⟩

/-- A resting BUY whose remaining quantity has been matched down to 0 (such
orders persist in the book because `removeOrder` is a stub). -/
def zeroBid : Order :=
  ⟨"ZB", "u9", "S", OrderType.LIMIT, OrderSide.BUY, 0, 10, 0, OrderStatus.PENDING⟩

/-- A book whose buy side holds only the fully-filled `zeroBid` at level 10. -/
def bkStale : OrderBook := ⟨"S", [(10, [zeroBid])], []⟩

/-- The best-bid value the claim describes: the maximum buy price among
levels holding an order with remaining quantity > 0, or 0 if there is
none.  Stated from the claim's words, for comparison with `getBestBid`. -/
def claimedBestBid (book : OrderBook) : ℚ :=
  ((book.buy_orders.filter
      (fun l => l.2.any (fun o => if 0 < o.quantity then true else false))).map
    Prod.fst).foldr max 0

/-- The ring buffer of `mkCQueue _ 2`, before any enqueue. -/
def qEmpty : CQueue TradeEvent := ⟨2, [(0, none), (1, none)], 0, 0⟩

/-- A first trade event. -/
def ev1 : TradeEvent := ⟨"AAPL", 50, 1⟩

/-- A second trade event. -/
def ev2 : TradeEvent := ⟨"AAPL", 51, 2⟩

/-- A third trade event, submitted while the queue is full. -/
def ev3 : TradeEvent := ⟨"AAPL", 52, 3⟩

/-- `qEmpty` after enqueuing `ev1`. -/
def qOne : CQueue TradeEvent := ⟨2, [(1, some ev1), (1, none)], 1, 0⟩

/-- `qOne` after enqueuing `ev2`: the queue is now full (both slots
published, nothing consumed). -/
def qFull : CQueue TradeEvent := ⟨2, [(1, some ev1), (2, some ev2)], 2, 0⟩

/-- An enabled, running collector whose bounded queue is full. -/
def scFull : StatsCollector := ⟨true, true, qFull, 0⟩

/-- A user holding 5 AAPL at average price 10, with 1000 cash. -/
def u3 : User := ⟨"u3", 1000, 0, [("AAPL", ⟨"AAPL", 5, 10⟩)]⟩

/-- A user with 10000 cash and no positions. -/
def u4 : User := ⟨"u4", 10000, 0, []⟩

/-- A resting limit SELL of 2 @ 50. -/
def sSmall : Order :=
  ⟨"S9", "u2", "AAPL", OrderType.LIMIT, OrderSide.SELL, 2, 50, 0, OrderStatus.PENDING⟩

/-- A book holding only `sSmall`. -/
def bkSmall : OrderBook := ⟨"AAPL", [], [(50, [sSmall])]⟩

/-- An incoming limit BUY of 5 @ 50. -/
def lBuy : Order :=
  ⟨"B9", "u1", "AAPL", OrderType.LIMIT, OrderSide.BUY, 5, 50, 0, OrderStatus.PENDING⟩

/-- A two-level, two-sided book with properly ordered level keys. -/
def bkTwo : OrderBook :=
  ⟨"S", [(10, [zeroBid]), (8, [])], [(11, []), (12, [])]⟩

/-- A concrete trade between distinct users `u1` (buyer) and `u2`
(seller). -/
def tr1 : Trade := ⟨1, "B1", "S1", "u1", "u2", "AAPL", 100, 50⟩

/-- The resting counterparty's order id recorded in a trade: the incoming
order's side determines the labelling (`matching_engine.cpp`, lines 66-67
and 124-125), so the resting order is the sell side of a BUY and the buy
side of a SELL. -/
def counterId (side : OrderSide) (t : Trade) : String :=
  match side with
  | OrderSide.BUY => t.sell_order_id
  | OrderSide.SELL => t.buy_order_id

/-- Total remaining quantity of a list of orders. -/
def sumQty (os : List Order) : ℚ :=
  (os.map Order.quantity).sum

/-! ## Association-list helper lemmas -/

theorem lookupAssoc_setAssoc_self {β : Type} (l : List (String × β)) (k : String) (v : β) :
    lookupAssoc (setAssoc l k v) k = some v := by
  induction l with
  | nil => simp [setAssoc, lookupAssoc]
  | cons p rest ih =>
    by_cases h : p.1 = k
    · simp [setAssoc, h, lookupAssoc]
    · cases p with
      | mk a b => simp_all [setAssoc, lookupAssoc, h]

theorem lookupAssoc_setAssoc_ne {β : Type} (l : List (String × β)) (k k' : String) (v : β)
    (h : k' ≠ k) : lookupAssoc (setAssoc l k v) k' = lookupAssoc l k' := by
  have h' : k ≠ k' := Ne.symm h
  induction l with
  | nil => simp [setAssoc, lookupAssoc, h']
  | cons p rest ih =>
    cases p with
    | mk a b =>
      by_cases ha : a = k
      · subst ha
        simp [setAssoc, lookupAssoc, h']
      · simp [setAssoc, ha, lookupAssoc, ih]

theorem mem_setAssoc {β : Type} (l : List (String × β)) (k : String) (v : β) (p : String × β)
    (hp : p ∈ setAssoc l k v) : p = (k, v) ∨ p ∈ l := by
  induction l with
  | nil => simpa [setAssoc] using hp
  | cons q rest ih =>
    cases q with
    | mk a b =>
      by_cases ha : a = k
      · simp [setAssoc, ha] at hp
        rcases hp with h1 | h1
        · left; simp [h1]
        · right; simp [h1]
      · simp [setAssoc, ha] at hp
        rcases hp with h1 | h1
        · right; simp [h1]
        · rcases ih h1 with h2 | h2
          · left; exact h2
          · right; simp [h2]

theorem lookupAssoc_mem {β : Type} (l : List (String × β)) (k : String) (v : β)
    (h : lookupAssoc l k = some v) : (k, v) ∈ l := by
  induction l with
  | nil => simp [lookupAssoc] at h
  | cons q rest ih =>
    cases q with
    | mk a b =>
      by_cases ha : a = k
      · subst ha
        simp [lookupAssoc] at h
        simp [h]
      · simp [lookupAssoc, ha] at h
        simp [ih h]

/-! ## Match-loop lemmas -/

theorem flattenOrders_cons (p : ℚ) (os : List Order) (ls : List (ℚ × List Order)) :
    flattenOrders ((p, os) :: ls) = os ++ flattenOrders ls := by
  simp [flattenOrders]

theorem fillOrders_trades_mem (order : Order) (px : ℚ) (os : List Order) :
    ∀ (rem : ℚ) (e : Engine) (t : Trade), t ∈ (fillOrders order px os rem e).1 →
      t.price = px ∧ ∃ o ∈ os, canMatch order.side px o = true ∧
        counterId order.side t = o.id := by
  induction os with
  | nil =>
    intro rem e t ht
    simp [fillOrders] at ht
  | cons o rest ih =>
    intro rem e t ht
    by_cases h0 : rem ≤ 0
    · simp [fillOrders, h0] at ht
    · by_cases hm : canMatch order.side px o = true
      · simp only [fillOrders, h0, hm, if_true, if_false, ite_true, ite_false,
          List.mem_cons] at ht
        rcases ht with h1 | h1
        · refine ⟨?_, o, List.mem_cons_self o rest, hm, ?_⟩
          · subst h1
            simp [createTrade]
          · subst h1
            cases hside : order.side <;> simp [createTrade, counterId, hside]
        · obtain ⟨hp, o', ho', hcm', hcid'⟩ := ih _ _ _ h1
          exact ⟨hp, o', List.mem_cons_of_mem _ ho', hcm', hcid'⟩
      · have hm' : canMatch order.side px o = false := by
          revert hm
          cases canMatch order.side px o <;> simp
        simp only [fillOrders, h0, hm', if_false, ite_false, Bool.false_eq_true] at ht
        obtain ⟨hp, o', ho', hcm', hcid'⟩ := ih _ _ _ ht
        exact ⟨hp, o', List.mem_cons_of_mem _ ho', hcm', hcid'⟩

theorem fillLevels_trades_mem (order : Order) (px : ℚ) (ls : List (ℚ × List Order)) :
    ∀ (rem : ℚ) (e : Engine) (t : Trade), t ∈ (fillLevels order px ls rem e).1 →
      t.price = px ∧ ∃ o ∈ flattenOrders ls, canMatch order.side px o = true ∧
        counterId order.side t = o.id := by
  induction ls with
  | nil =>
    intro rem e t ht
    simp [fillLevels] at ht
  | cons lv rest ih =>
    intro rem e t ht
    cases lv with
    | mk p os =>
      simp only [fillLevels, List.mem_append] at ht
      rcases ht with h1 | h1
      · obtain ⟨hp, o', ho', hcm, hcid⟩ := fillOrders_trades_mem order px os _ _ _ h1
        refine ⟨hp, o', ?_, hcm, hcid⟩
        rw [flattenOrders_cons]
        exact List.mem_append_left _ ho'
      · obtain ⟨hp, o', ho', hcm, hcid⟩ := ih _ _ _ h1
        refine ⟨hp, o', ?_, hcm, hcid⟩
        rw [flattenOrders_cons]
        exact List.mem_append_right _ ho'

theorem sumQty_nonneg (os : List Order) (h : ∀ o ∈ os, 0 ≤ o.quantity) :
    0 ≤ sumQty os := by
  induction os with
  | nil => simp [sumQty]
  | cons o rest ih =>
    have h1 := h o (List.mem_cons_self o rest)
    have h2 := ih (fun o' ho' => h o' (List.mem_cons_of_mem _ ho'))
    simp only [sumQty, List.map_cons, List.sum_cons]
    simp only [sumQty] at h2
    linarith

theorem sumQty_cons (o : Order) (os : List Order) :
    sumQty (o :: os) = o.quantity + sumQty os := by
  simp [sumQty]

theorem sumQty_append (os1 os2 : List Order) :
    sumQty (os1 ++ os2) = sumQty os1 + sumQty os2 := by
  simp [sumQty]

theorem fillOrders_rem_ge (order : Order) (px : ℚ) (os : List Order) :
    ∀ (rem : ℚ) (e : Engine), (∀ o ∈ os, 0 ≤ o.quantity) →
      rem - sumQty os ≤ (fillOrders order px os rem e).2.2.1 := by
  induction os with
  | nil =>
    intro rem e _
    simp [fillOrders, sumQty]
  | cons o rest ih =>
    intro rem e h
    have hoq := h o (List.mem_cons_self o rest)
    have hrest : ∀ o' ∈ rest, 0 ≤ o'.quantity :=
      fun o' ho' => h o' (List.mem_cons_of_mem _ ho')
    have hsumrest := sumQty_nonneg rest hrest
    rw [sumQty_cons]
    by_cases h0 : rem ≤ 0
    · simp only [fillOrders, h0, if_true, ite_true]
      linarith
    · by_cases hm : canMatch order.side px o = true
      · simp only [fillOrders, h0, hm, if_true, if_false, ite_true, ite_false]
        have htq : (if o.quantity < rem then o.quantity else rem) ≤ o.quantity := by
          by_cases hlt : o.quantity < rem
          · simp [hlt]
          · simp only [hlt, if_false, ite_false]
            linarith [not_lt.mp hlt]
        have hih := ih (rem - (if o.quantity < rem then o.quantity else rem))
          (createTrade e (if order.side = OrderSide.BUY then order else o)
            (if order.side = OrderSide.SELL then order else o)
            (if o.quantity < rem then o.quantity else rem) px).2 hrest
        linarith
      · have hm' : canMatch order.side px o = false := by
          revert hm
          cases canMatch order.side px o <;> simp
        simp only [fillOrders, h0, hm', if_false, ite_false, Bool.false_eq_true]
        have hih := ih rem e hrest
        linarith

theorem fillOrders_complete (order : Order) (px : ℚ) (os : List Order) :
    ∀ (rem : ℚ) (e : Engine), (∀ o ∈ os, 0 ≤ o.quantity) → sumQty os < rem →
      ∀ o ∈ os, canMatch order.side px o = true →
        ∃ t ∈ (fillOrders order px os rem e).1, counterId order.side t = o.id := by
  induction os with
  | nil =>
    intro rem e _ _ o ho
    simp at ho
  | cons o0 rest ih =>
    intro rem e h hsum o ho hcm
    have ho0q := h o0 (List.mem_cons_self o0 rest)
    have hrest : ∀ o' ∈ rest, 0 ≤ o'.quantity :=
      fun o' ho' => h o' (List.mem_cons_of_mem _ ho')
    have hsumrest := sumQty_nonneg rest hrest
    rw [sumQty_cons] at hsum
    have h0 : ¬(rem ≤ 0) := by
      push_neg
      linarith
    by_cases hm : canMatch order.side px o0 = true
    · have hlt : o0.quantity < rem := by linarith
      simp only [fillOrders, h0, hm, hlt, if_true, if_false, ite_true, ite_false,
        List.mem_cons]
      rcases List.mem_cons.mp ho with rfl | ho'
      · refine ⟨(createTrade e (if order.side = OrderSide.BUY then order else o)
          (if order.side = OrderSide.SELL then order else o) o.quantity px).1,
          Or.inl rfl, ?_⟩
        cases hside : order.side <;> simp [createTrade, counterId, hside]
      · have hsum2 : sumQty rest < rem - o0.quantity := by linarith
        obtain ⟨t, ht, hcid⟩ := ih (rem - o0.quantity)
          (createTrade e (if order.side = OrderSide.BUY then order else o0)
            (if order.side = OrderSide.SELL then order else o0) o0.quantity px).2
          hrest hsum2 o ho' hcm
        exact ⟨t, Or.inr ht, hcid⟩
    · have hm' : canMatch order.side px o0 = false := by
        revert hm
        cases canMatch order.side px o0 <;> simp
      simp only [fillOrders, h0, hm', if_false, ite_false, Bool.false_eq_true]
      rcases List.mem_cons.mp ho with rfl | ho'
      · rw [hm'] at hcm
        cases hcm
      · have hsum2 : sumQty rest < rem := by linarith
        exact ih rem e hrest hsum2 o ho' hcm

theorem fillLevels_complete (order : Order) (px : ℚ) (ls : List (ℚ × List Order)) :
    ∀ (rem : ℚ) (e : Engine), (∀ o ∈ flattenOrders ls, 0 ≤ o.quantity) →
      sumQty (flattenOrders ls) < rem →
      ∀ o ∈ flattenOrders ls, canMatch order.side px o = true →
        ∃ t ∈ (fillLevels order px ls rem e).1, counterId order.side t = o.id := by
  induction ls with
  | nil =>
    intro rem e _ _ o ho
    simp [flattenOrders] at ho
  | cons lv rest ih =>
    intro rem e h hsum o ho hcm
    cases lv with
    | mk p os =>
      rw [flattenOrders_cons] at h hsum ho
      have hos : ∀ o' ∈ os, 0 ≤ o'.quantity :=
        fun o' ho' => h o' (List.mem_append_left _ ho')
      have hrest : ∀ o' ∈ flattenOrders rest, 0 ≤ o'.quantity :=
        fun o' ho' => h o' (List.mem_append_right _ ho')
      rw [sumQty_append] at hsum
      have hsumrest := sumQty_nonneg _ hrest
      have hsumos := sumQty_nonneg _ hos
      simp only [fillLevels, List.mem_append]
      rcases List.mem_append.mp ho with h1 | h1
      · obtain ⟨t, ht, hcid⟩ := fillOrders_complete order px os rem e hos
          (by linarith) o h1 hcm
        exact ⟨t, Or.inl ht, hcid⟩
      · have hge := fillOrders_rem_ge order px os rem e hos
        obtain ⟨t, ht, hcid⟩ := ih (fillOrders order px os rem e).2.2.1
          (fillOrders order px os rem e).2.2.2 hrest (by linarith) o h1 hcm
        exact ⟨t, Or.inr ht, hcid⟩

/-! ## Theorems -/

/-- C2 (code bug): a resting order whose remaining quantity reaches 0
during matching is *not* removed from the book — `OrderBook::removeOrder`
is an unimplemented stub returning `false` — contradicting the comment at
`matching_engine.cpp:76` and the spec's edge policy.  Evaluating the code
at the failing input: resting SELL 100 @ 50 fully filled by a market BUY
of 100; after `matchOrder` the book still stores the order at level 50
with quantity 0. -/
theorem filled_resting_order_left_in_book :
    ((matchOrder mBuy bk1 e0).1).length = 1 ∧
    (matchOrder mBuy bk1 e0).2.1.sell_orders = [(50, [{ s1 with quantity := 0 }])] ∧
    removeOrder (matchOrder mBuy bk1 e0).2.1 "S1" =
      (false, (matchOrder mBuy bk1 e0).2.1) := by
  norm_num [matchOrder, matchMarketOrder, fillLevels, fillOrders, canMatch,
    capturedPrice, oppositeSide, createTrade, getBestAsk, getBestBid,
    removeOrder, e0, s1, mBuy, bk1]

/-- C10: for an order whose type is neither MARKET nor LIMIT (in
particular STOP), `matchOrder` returns an empty trade vector and leaves
the book, the user registry, `total_trades_`, `total_volume_`,
`next_trade_id_` and the callback log unchanged. -/
theorem match_order_other_types_noop (order : Order) (book : OrderBook)
    (e : Engine) (h1 : order.otype ≠ OrderType.MARKET)
    (h2 : order.otype ≠ OrderType.LIMIT) :
    matchOrder order book e = ([], book, e) := by
  simp [matchOrder, h1, h2]

/-- C10 witness: the theorem applied to a concrete STOP order. -/
theorem match_order_other_types_noop_witness :
    matchOrder stop1 bk1 e0 = ([], bk1, e0) :=
  match_order_other_types_noop stop1 bk1 e0 (by decide) (by decide)

/-- C1 counterexample: the claim's final conjunct — "if the captured
top-of-book is 0 (empty opposite side), no trades are produced" — is false
as stated: a resting sell at price 0 (e.g. a market SELL parked by the
ingress `addOrder`-then-match flow) makes the captured best ask 0 while a
market BUY still fills against it. -/
theorem market_order_zero_capture_trades :
    getBestAsk bkZero = 0 ∧ ((matchMarketOrder mBuy1 bkZero e0).1).length = 1 := by
  decide

/-- C7 counterexample: `getBestBid` returns the highest buy *level key*
even when every order at that level has remaining quantity 0 (such levels
persist because `removeOrder` is a stub and `addOrder` does not check the
quantity), so it is not "the maximum buy price among levels holding orders
with remaining quantity > 0, or 0 if there is none". -/
theorem best_bid_ignores_zero_quantity :
    getBestBid bkStale = 10 ∧ claimedBestBid bkStale = 0 ∧
    getBestBid bkStale ≠ claimedBestBid bkStale := by
  decide

/-- C9 (code bug): with the bounded trade queue full, `submitTradeEvent`
does not return `false` and does not increment the dropped-trade counter —
`ConcurrentQueue::enqueue` has no full-queue error path; it waits on the
claimed slot's sequence, so the call blocks (modelled as `none`),
contradicting the comment at `statistics_collector.cpp:80` ("if queue is
full, this will not block") and the spec.  The first three conjuncts
evaluate the constructor and the two fills that reach the full state. -/
theorem submit_blocks_on_full_queue :
    mkCQueue TradeEvent 2 = some qEmpty ∧
    enqueueStep qEmpty ev1 = some qOne ∧
    enqueueStep qOne ev2 = some qFull ∧
    submitTradeEvent scFull ev3 = none ∧
    scFull.total_trades_dropped = 0 := by
  decide

/-- C8 (code bug): evaluating `updateVolatility` on two successive returns
(prices 1 → 3/2 → 3, so r₁ = 1/2, r₂ = 1): the first call stores
√(r₁²) = 1/2; the second blends the stored *standard deviation* 1/2 — not
its square 1/4 — into the EWMA, storing √(0.1·1 + 0.9·(1/2)) = √(11/20),
whereas the recursion the spec states (`v² = α·r² + (1−α)·v²_prev`,
`claimedVolatility`) gives √(0.1·1 + 0.9·(1/4)) = √(13/40).  The two
values differ, so after the second trade the stored volatility is not
√(α·r² + (1−α)·v²_prev). -/
theorem volatility_blends_stddev_not_variance :
    updateVolatility (updateVolatility 0 (3/2) 1) 3 (3/2) = Real.sqrt (11/20) ∧
    claimedVolatility (claimedVolatility 0 (3/2) 1) 3 (3/2) = Real.sqrt (13/40) ∧
    Real.sqrt (11/20) ≠ Real.sqrt (13/40) := by
  have hcode1 : updateVolatility 0 (3/2) 1 = 1/2 := by
    rw [updateVolatility]
    norm_num
    rw [show (4:ℝ) = 2^2 by norm_num, Real.sqrt_sq (by norm_num)]
    norm_num
  have hspec1 : claimedVolatility 0 (3/2) 1 = 1/2 := by
    rw [claimedVolatility]
    norm_num
    rw [show (4:ℝ) = 2^2 by norm_num, Real.sqrt_sq (by norm_num)]
    norm_num
  refine ⟨?_, ?_, ?_⟩
  · rw [hcode1, updateVolatility]
    norm_num
  · rw [hspec1, claimedVolatility]
    norm_num
  · intro h
    have h2 : (11/20 : ℝ) = 13/40 := by
      rw [← Real.sq_sqrt (show (0:ℝ) ≤ 11/20 by norm_num), h,
          Real.sq_sqrt (show (0:ℝ) ≤ 13/40 by norm_num)]
    norm_num at h2

/-- C4: `applyExecution` preserves the no-shorting invariant: from a user
state whose positions all have quantity ≥ 0, every call (any side, any
arguments) leaves every stored position quantity ≥ 0.  Moreover a SELL for
more than the owned quantity beyond the `1e-12` tolerance is rejected
without mutation, and a successful SELL whose residual is within the
tolerance resets the position to quantity 0 with `average_price` 0. -/
theorem apply_execution_no_shorting (u : User) (side : OrderSide) (symbol : String)
    (qty price fee : ℚ)
    (hinv : ∀ pr ∈ u.positions, 0 ≤ (Prod.snd pr).quantity) :
    (∀ pr ∈ (applyExecution u side symbol qty price fee).2.positions,
        0 ≤ (Prod.snd pr).quantity) ∧
    (∀ pos, side = OrderSide.SELL → lookupAssoc u.positions symbol = some pos →
      pos.quantity + eps < qty →
      applyExecution u side symbol qty price fee = (false, u)) ∧
    (∀ pos, side = OrderSide.SELL → ¬(qty ≤ 0 ∨ price < 0 ∨ fee < 0) →
      lookupAssoc u.positions symbol = some pos → qty ≤ pos.quantity + eps →
      pos.quantity - qty ≤ eps →
      lookupAssoc (applyExecution u side symbol qty price fee).2.positions symbol
        = some { pos with quantity := 0, average_price := 0 }) := by
  by_cases hval : qty ≤ 0 ∨ price < 0 ∨ fee < 0
  · refine ⟨?_, ?_, ?_⟩
    · simpa [applyExecution, hval] using hinv
    · intro pos _ _ _
      simp [applyExecution, hval]
    · intro pos _ hval2 _ _ _
      exact absurd hval hval2
  · cases side with
    | BUY =>
      refine ⟨?_, ?_, ?_⟩
      · by_cases hc : qty * price + fee > u.cash_balance
        · simpa [applyExecution, hval, hc] using hinv
        · cases hll : lookupAssoc u.positions symbol with
          | none =>
            have hq : 0 < qty := by
              push_neg at hval
              exact hval.1
            have hdef : lookupAssoc (setAssoc u.positions symbol
                (⟨symbol, 0, 0⟩ : Position)) symbol = some ⟨symbol, 0, 0⟩ :=
              lookupAssoc_setAssoc_self _ _ _
            simp only [applyExecution, hval, hc, hll, hdef, if_false, ite_false]
            simp only [Option.getD_some]
            have hnq : ¬((0 : ℚ) + qty ≤ 0) := by simpa using hq
            simp only [hnq, if_false, ite_false]
            intro pr hpr
            rcases mem_setAssoc _ _ _ _ hpr with h1 | h1
            · subst h1
              simpa using le_of_lt hq
            · rcases mem_setAssoc _ _ _ _ h1 with h2 | h2
              · subst h2; simp
              · exact hinv pr h2
          | some pos =>
            have hq : 0 < qty := by
              push_neg at hval
              exact hval.1
            have hposq : 0 ≤ pos.quantity := by
              have := hinv (symbol, pos) (lookupAssoc_mem _ _ _ hll)
              simpa using this
            have hnq : ¬(pos.quantity + qty ≤ 0) := by
              push_neg
              exact add_pos_of_nonneg_of_pos hposq hq
            simp only [applyExecution, hval, hc, hll, if_false, ite_false,
              Option.getD_some]
            simp only [hnq, if_false, ite_false]
            intro pr hpr
            rcases mem_setAssoc _ _ _ _ hpr with h1 | h1
            · subst h1
              have : (0 : ℚ) ≤ pos.quantity + qty :=
                le_of_lt (add_pos_of_nonneg_of_pos hposq hq)
              simpa using this
            · exact hinv pr h1
      · intro pos hside
        exact absurd hside (by simp)
      · intro pos hside
        exact absurd hside (by simp)
    | SELL =>
      refine ⟨?_, ?_, ?_⟩
      · cases hll : lookupAssoc u.positions symbol with
        | none => simpa [applyExecution, hval, hll] using hinv
        | some pos =>
          by_cases hover : qty > pos.quantity + eps
          · simpa [applyExecution, hval, hll, hover] using hinv
          · by_cases hflat : pos.quantity - qty ≤ eps
            · simp only [applyExecution, hval, hll, hover, if_false, ite_false,
                hflat, if_true, ite_true]
              intro pr hpr
              rcases mem_setAssoc _ _ _ _ hpr with h1 | h1
              · subst h1; simp
              · exact hinv pr h1
            · simp only [applyExecution, hval, hll, hover, if_false, ite_false,
                hflat, if_true, ite_true]
              intro pr hpr
              rcases mem_setAssoc _ _ _ _ hpr with h1 | h1
              · subst h1
                have heps : (0 : ℚ) < eps := by norm_num [eps]
                push_neg at hflat
                simpa using le_of_lt (lt_trans heps hflat)
              · exact hinv pr h1
      · intro pos _ hll hover
        simp [applyExecution, hval, hll, hover]
      · intro pos _ _ hll hle hflat
        have hover : ¬(qty > pos.quantity + eps) := by
          push_neg
          exact hle
        simp only [applyExecution, hval, hll, hover, if_false, ite_false,
          hflat, if_true, ite_true]
        exact lookupAssoc_setAssoc_self _ _ _

/-- C4 witness: the no-shorting theorem applied to `u3` selling its whole
position (5 AAPL at price 2), with the invariant hypothesis discharged by
evaluation. -/
theorem apply_execution_no_shorting_witness :
    (∀ pr ∈ (applyExecution u3 OrderSide.SELL "AAPL" 5 2 0).2.positions,
        0 ≤ (Prod.snd pr).quantity) ∧
    (∀ pos, OrderSide.SELL = OrderSide.SELL →
      lookupAssoc u3.positions "AAPL" = some pos →
      pos.quantity + eps < 5 →
      applyExecution u3 OrderSide.SELL "AAPL" 5 2 0 = (false, u3)) ∧
    (∀ pos, OrderSide.SELL = OrderSide.SELL →
      ¬((5 : ℚ) ≤ 0 ∨ (2 : ℚ) < 0 ∨ (0 : ℚ) < 0) →
      lookupAssoc u3.positions "AAPL" = some pos → 5 ≤ pos.quantity + eps →
      pos.quantity - 5 ≤ eps →
      lookupAssoc (applyExecution u3 OrderSide.SELL "AAPL" 5 2 0).2.positions "AAPL"
        = some { pos with quantity := 0, average_price := 0 }) :=
  apply_execution_no_shorting u3 OrderSide.SELL "AAPL" 5 2 0
    (by simp [u3])

/-- C5: for a BUY execution with `qty > 0`, `price ≥ 0`, `fee ≥ 0`, from a
state whose position for the symbol (if any) has nonnegative quantity: if
`qty·price + fee` exceeds the cash balance the call fails without any
mutation; otherwise it succeeds, moves the position to quantity
`pos.qty + qty` with average price `(pos.avg·pos.qty + qty·price) /
(pos.qty + qty)`, deducts `qty·price + fee` from cash, and leaves the
realized P&L and every other symbol's position untouched. -/
theorem apply_execution_buy_semantics (u : User) (symbol : String)
    (qty price fee : ℚ) (pos0 : Position)
    (hq : 0 < qty) (hp : 0 ≤ price) (hf : 0 ≤ fee)
    (hpos0 : (lookupAssoc u.positions symbol).getD ⟨symbol, 0, 0⟩ = pos0)
    (hposq : 0 ≤ pos0.quantity) :
    (qty * price + fee > u.cash_balance →
      applyExecution u OrderSide.BUY symbol qty price fee = (false, u)) ∧
    (¬(qty * price + fee > u.cash_balance) →
      (applyExecution u OrderSide.BUY symbol qty price fee).1 = true ∧
      (applyExecution u OrderSide.BUY symbol qty price fee).2.cash_balance
        = u.cash_balance - (qty * price + fee) ∧
      (applyExecution u OrderSide.BUY symbol qty price fee).2.realized_pnl
        = u.realized_pnl ∧
      lookupAssoc (applyExecution u OrderSide.BUY symbol qty price fee).2.positions symbol
        = some ⟨pos0.symbol, pos0.quantity + qty,
            (pos0.average_price * pos0.quantity + qty * price) / (pos0.quantity + qty)⟩ ∧
      ∀ s, s ≠ symbol →
        lookupAssoc (applyExecution u OrderSide.BUY symbol qty price fee).2.positions s
          = lookupAssoc u.positions s) := by
  have hval : ¬(qty ≤ 0 ∨ price < 0 ∨ fee < 0) := by
    push_neg
    exact ⟨hq, hp, hf⟩
  constructor
  · intro hc
    simp [applyExecution, hval, hc]
  · intro hc
    have hnq : ¬(pos0.quantity + qty ≤ 0) := by
      push_neg
      exact add_pos_of_nonneg_of_pos hposq hq
    cases hll : lookupAssoc u.positions symbol with
    | none =>
      have hpos0' : pos0 = (⟨symbol, 0, 0⟩ : Position) := by
        rw [hll] at hpos0
        simpa using hpos0.symm
      have hdef : lookupAssoc (setAssoc u.positions symbol
          (⟨symbol, 0, 0⟩ : Position)) symbol = some ⟨symbol, 0, 0⟩ :=
        lookupAssoc_setAssoc_self _ _ _
      subst hpos0'
      simp only [applyExecution, hval, hc, hll, hdef, if_false, ite_false,
        Option.getD_some] at hnq ⊢
      simp only [hnq, if_false, ite_false]
      refine ⟨trivial, trivial, trivial, ?_, ?_⟩
      · rw [lookupAssoc_setAssoc_self]
      · intro s hs
        rw [lookupAssoc_setAssoc_ne _ _ _ _ hs, lookupAssoc_setAssoc_ne _ _ _ _ hs]
    | some pos =>
      have hpos0' : pos0 = pos := by
        rw [hll] at hpos0
        simpa using hpos0.symm
      subst hpos0'
      simp only [applyExecution, hval, hc, hll, if_false, ite_false,
        Option.getD_some] at hnq ⊢
      simp only [hnq, if_false, ite_false]
      refine ⟨trivial, trivial, trivial, ?_, ?_⟩
      · rw [lookupAssoc_setAssoc_self]
      · intro s hs
        rw [lookupAssoc_setAssoc_ne _ _ _ _ hs]

/-- C5 witness: the BUY-semantics theorem applied to `u4` buying 100 @ 50
with fee 0 (affordable branch). -/
theorem apply_execution_buy_semantics_witness :
    ((100 : ℚ) * 50 + 0 > u4.cash_balance →
      applyExecution u4 OrderSide.BUY "AAPL" 100 50 0 = (false, u4)) ∧
    (¬((100 : ℚ) * 50 + 0 > u4.cash_balance) →
      (applyExecution u4 OrderSide.BUY "AAPL" 100 50 0).1 = true ∧
      (applyExecution u4 OrderSide.BUY "AAPL" 100 50 0).2.cash_balance
        = u4.cash_balance - (100 * 50 + 0) ∧
      (applyExecution u4 OrderSide.BUY "AAPL" 100 50 0).2.realized_pnl
        = u4.realized_pnl ∧
      lookupAssoc (applyExecution u4 OrderSide.BUY "AAPL" 100 50 0).2.positions "AAPL"
        = some ⟨Position.symbol ⟨"AAPL", 0, 0⟩, Position.quantity ⟨"AAPL", 0, 0⟩ + 100,
            (Position.average_price ⟨"AAPL", 0, 0⟩ * Position.quantity ⟨"AAPL", 0, 0⟩
              + 100 * 50) / (Position.quantity ⟨"AAPL", 0, 0⟩ + 100)⟩ ∧
      ∀ s, s ≠ "AAPL" →
        lookupAssoc (applyExecution u4 OrderSide.BUY "AAPL" 100 50 0).2.positions s
          = lookupAssoc u4.positions s) :=
  apply_execution_buy_semantics u4 "AAPL" 100 50 0 ⟨"AAPL", 0, 0⟩
    (by norm_num) (by norm_num) (by norm_num)
    (by simp [u4, lookupAssoc]) (by norm_num)

/-- C1 (amended): `matchMarketOrder` fixes one price at entry — the best
opposite top-of-book (`capturedPrice`) — and (i) every fill is at that
captured price; (ii) every trade's resting counterparty had price ≤ the
captured price for a BUY, ≥ for a SELL, so deeper levels never fill;
(iii) if the opposite side is empty (the case in which the captured
top-of-book is 0), no trades are produced.  (The original claim's "if the
captured top-of-book is 0, no trades" is refuted by
`market_order_zero_capture_trades`: a resting order priced 0 makes the
capture 0 yet still fills.) -/
theorem market_order_fixed_capture (order : Order) (book : OrderBook) (e : Engine) :
    (∀ t ∈ (matchMarketOrder order book e).1, t.price = capturedPrice order book) ∧
    (∀ t ∈ (matchMarketOrder order book e).1,
      ∃ o ∈ flattenOrders (oppositeSide order book),
        counterId order.side t = o.id ∧
        (order.side = OrderSide.BUY → o.price ≤ capturedPrice order book) ∧
        (order.side = OrderSide.SELL → capturedPrice order book ≤ o.price)) ∧
    (oppositeSide order book = [] → (matchMarketOrder order book e).1 = []) := by
  refine ⟨?_, ?_, ?_⟩
  · intro t ht
    have ht' : t ∈ (fillLevels order (capturedPrice order book)
        (oppositeSide order book) order.quantity e).1 := ht
    exact (fillLevels_trades_mem order _ _ _ _ _ ht').1
  · intro t ht
    have ht' : t ∈ (fillLevels order (capturedPrice order book)
        (oppositeSide order book) order.quantity e).1 := ht
    obtain ⟨_, o, ho, hcm, hcid⟩ := fillLevels_trades_mem order _ _ _ _ _ ht'
    refine ⟨o, ho, hcid, ?_, ?_⟩
    · intro hside
      rw [hside] at hcm
      simpa [canMatch] using hcm
    · intro hside
      rw [hside] at hcm
      simpa [canMatch] using hcm
  · intro hopp
    show (fillLevels order (capturedPrice order book)
        (oppositeSide order book) order.quantity e).1 = []
    rw [hopp]
    rfl

/-- C1 witness: the amended market-order theorem instantiated at the
concrete book `bk1` and market order `mBuy`. -/
theorem market_order_fixed_capture_witness :
    (∀ t ∈ (matchMarketOrder mBuy bk1 e0).1, t.price = capturedPrice mBuy bk1) ∧
    (∀ t ∈ (matchMarketOrder mBuy bk1 e0).1,
      ∃ o ∈ flattenOrders (oppositeSide mBuy bk1),
        counterId mBuy.side t = o.id ∧
        (mBuy.side = OrderSide.BUY → o.price ≤ capturedPrice mBuy bk1) ∧
        (mBuy.side = OrderSide.SELL → capturedPrice mBuy bk1 ≤ o.price)) ∧
    (oppositeSide mBuy bk1 = [] → (matchMarketOrder mBuy bk1 e0).1 = []) :=
  market_order_fixed_capture mBuy bk1 e0

/-- C3: every trade emitted by `matchLimitOrder` is priced at the incoming
order's limit price (not the resting order's price); every filled resting
order satisfied resting ≤ incoming (BUY) / resting ≥ incoming (SELL); and
conversely, whenever the incoming quantity exceeds the whole opposite
side, every resting order satisfying that price condition is filled — the
price condition is exactly the code's matchability test. -/
theorem limit_order_pricing_and_matchability (order : Order) (book : OrderBook)
    (e : Engine) :
    (∀ t ∈ (matchLimitOrder order book e).1, t.price = order.price) ∧
    (∀ t ∈ (matchLimitOrder order book e).1,
      ∃ o ∈ flattenOrders (oppositeSide order book),
        counterId order.side t = o.id ∧
        (order.side = OrderSide.BUY → o.price ≤ order.price) ∧
        (order.side = OrderSide.SELL → order.price ≤ o.price)) ∧
    ((∀ o ∈ flattenOrders (oppositeSide order book), 0 ≤ o.quantity) →
      sumQty (flattenOrders (oppositeSide order book)) < order.quantity →
      ∀ o ∈ flattenOrders (oppositeSide order book),
        ((order.side = OrderSide.BUY ∧ o.price ≤ order.price) ∨
         (order.side = OrderSide.SELL ∧ order.price ≤ o.price)) →
        ∃ t ∈ (matchLimitOrder order book e).1,
          counterId order.side t = o.id) := by
  refine ⟨?_, ?_, ?_⟩
  · intro t ht
    have ht' : t ∈ (fillLevels order order.price
        (oppositeSide order book) order.quantity e).1 := ht
    exact (fillLevels_trades_mem order _ _ _ _ _ ht').1
  · intro t ht
    have ht' : t ∈ (fillLevels order order.price
        (oppositeSide order book) order.quantity e).1 := ht
    obtain ⟨_, o, ho, hcm, hcid⟩ := fillLevels_trades_mem order _ _ _ _ _ ht'
    refine ⟨o, ho, hcid, ?_, ?_⟩
    · intro hside
      rw [hside] at hcm
      simpa [canMatch] using hcm
    · intro hside
      rw [hside] at hcm
      simpa [canMatch] using hcm
  · intro hq hsum o ho hcond
    have hcm : canMatch order.side order.price o = true := by
      rcases hcond with ⟨hs, hle⟩ | ⟨hs, hle⟩ <;>
        simp [canMatch, hs, hle]
    exact fillLevels_complete order order.price (oppositeSide order book)
      order.quantity e hq hsum o ho hcm

/-- C3 witness: the limit-order theorem instantiated at `lBuy` against
`bkSmall`. -/
theorem limit_order_pricing_and_matchability_witness :
    (∀ t ∈ (matchLimitOrder lBuy bkSmall e0).1, t.price = lBuy.price) ∧
    (∀ t ∈ (matchLimitOrder lBuy bkSmall e0).1,
      ∃ o ∈ flattenOrders (oppositeSide lBuy bkSmall),
        counterId lBuy.side t = o.id ∧
        (lBuy.side = OrderSide.BUY → o.price ≤ lBuy.price) ∧
        (lBuy.side = OrderSide.SELL → lBuy.price ≤ o.price)) ∧
    ((∀ o ∈ flattenOrders (oppositeSide lBuy bkSmall), 0 ≤ o.quantity) →
      sumQty (flattenOrders (oppositeSide lBuy bkSmall)) < lBuy.quantity →
      ∀ o ∈ flattenOrders (oppositeSide lBuy bkSmall),
        ((lBuy.side = OrderSide.BUY ∧ o.price ≤ lBuy.price) ∨
         (lBuy.side = OrderSide.SELL ∧ lBuy.price ≤ o.price)) →
        ∃ t ∈ (matchLimitOrder lBuy bkSmall e0).1,
          counterId lBuy.side t = o.id) :=
  limit_order_pricing_and_matchability lBuy bkSmall e0

/-- C7 (amended): in every book state whose level keys carry the C++
`std::map` ordering invariants (buy keys strictly descending, sell keys
strictly ascending), `getBestBid` returns the maximum *level key* of the
buy side — irrespective of the remaining quantities of the orders stored
there — or 0 when the buy side has no levels at all, and `getBestAsk` the
minimum sell level key, or 0.  (The original claim's restriction to levels
holding an order with quantity > 0 is refuted by
`best_bid_ignores_zero_quantity`.) -/
theorem best_prices_are_extreme_level_keys (book : OrderBook)
    (hb : List.Sorted (fun a b => b < a) (levelPrices book.buy_orders))
    (hs : List.Sorted (fun a b => a < b) (levelPrices book.sell_orders)) :
    (book.buy_orders = [] → getBestBid book = 0) ∧
    (book.buy_orders ≠ [] →
      getBestBid book ∈ levelPrices book.buy_orders ∧
      ∀ p ∈ levelPrices book.buy_orders, p ≤ getBestBid book) ∧
    (book.sell_orders = [] → getBestAsk book = 0) ∧
    (book.sell_orders ≠ [] →
      getBestAsk book ∈ levelPrices book.sell_orders ∧
      ∀ p ∈ levelPrices book.sell_orders, getBestAsk book ≤ p) := by
  refine ⟨?_, ?_, ?_, ?_⟩
  · intro h
    simp [getBestBid, h]
  · intro h
    cases hbb : book.buy_orders with
    | nil => exact absurd hbb h
    | cons hd tl =>
      rw [hbb] at hb
      cases hd with
      | mk p os =>
        simp only [levelPrices, List.map_cons, List.sorted_cons] at hb
        constructor
        · simp [getBestBid, hbb, levelPrices]
        · intro q hq
          simp only [getBestBid, hbb]
          simp only [levelPrices, List.map_cons, List.mem_cons] at hq
          rcases hq with rfl | hq
          · exact le_refl _
          · exact le_of_lt (hb.1 q hq)
  · intro h
    simp [getBestAsk, h]
  · intro h
    cases hss : book.sell_orders with
    | nil => exact absurd hss h
    | cons hd tl =>
      rw [hss] at hs
      cases hd with
      | mk p os =>
        simp only [levelPrices, List.map_cons, List.sorted_cons] at hs
        constructor
        · simp [getBestAsk, hss, levelPrices]
        · intro q hq
          simp only [getBestAsk, hss]
          simp only [levelPrices, List.map_cons, List.mem_cons] at hq
          rcases hq with rfl | hq
          · exact le_refl _
          · exact le_of_lt (hs.1 q hq)

/-- C7 witness: the amended best-price theorem applied to `bkTwo`, with the
`std::map` ordering hypotheses discharged by evaluation. -/
theorem best_prices_are_extreme_level_keys_witness :
    (bkTwo.buy_orders = [] → getBestBid bkTwo = 0) ∧
    (bkTwo.buy_orders ≠ [] →
      getBestBid bkTwo ∈ levelPrices bkTwo.buy_orders ∧
      ∀ p ∈ levelPrices bkTwo.buy_orders, p ≤ getBestBid bkTwo) ∧
    (bkTwo.sell_orders = [] → getBestAsk bkTwo = 0) ∧
    (bkTwo.sell_orders ≠ [] →
      getBestAsk bkTwo ∈ levelPrices bkTwo.sell_orders ∧
      ∀ p ∈ levelPrices bkTwo.sell_orders, getBestAsk bkTwo ≤ p) :=
  best_prices_are_extreme_level_keys bkTwo
    (by norm_num [bkTwo, levelPrices, List.sorted_cons])
    (by norm_num [bkTwo, levelPrices, List.sorted_cons])

/-! ## Engine-state bookkeeping lemmas -/

theorem setUser_users (e : Engine) (uid : String) (u : User) :
    (setUser e uid u).users = setAssoc e.users uid u := rfl

theorem setUser_total_trades (e : Engine) (uid : String) (u : User) :
    (setUser e uid u).total_trades = e.total_trades := rfl

theorem setUser_total_volume (e : Engine) (uid : String) (u : User) :
    (setUser e uid u).total_volume = e.total_volume := rfl

theorem setUser_callback_log (e : Engine) (uid : String) (u : User) :
    (setUser e uid u).callback_log = e.callback_log := rfl

theorem createTrade_engine (e : Engine) (b s : Order) (q p : ℚ) :
    (createTrade e b s q p).2.users = e.users ∧
    (createTrade e b s q p).2.total_trades = e.total_trades ∧
    (createTrade e b s q p).2.total_volume = e.total_volume ∧
    (createTrade e b s q p).2.callback_log = e.callback_log :=
  ⟨rfl, rfl, rfl, rfl⟩

theorem getOrCreateUser_total_trades (e : Engine) (uid : String) (c : ℚ) :
    (getOrCreateUser e uid c).2.total_trades = e.total_trades := by
  cases hl : lookupAssoc e.users uid <;> simp [getOrCreateUser, hl, setUser]

theorem getOrCreateUser_total_volume (e : Engine) (uid : String) (c : ℚ) :
    (getOrCreateUser e uid c).2.total_volume = e.total_volume := by
  cases hl : lookupAssoc e.users uid <;> simp [getOrCreateUser, hl, setUser]

theorem getOrCreateUser_callback_log (e : Engine) (uid : String) (c : ℚ) :
    (getOrCreateUser e uid c).2.callback_log = e.callback_log := by
  cases hl : lookupAssoc e.users uid <;> simp [getOrCreateUser, hl, setUser]

theorem getOrCreateUser_users_ne (e : Engine) (uid : String) (c : ℚ) (uid' : String)
    (h : uid' ≠ uid) :
    lookupAssoc (getOrCreateUser e uid c).2.users uid' = lookupAssoc e.users uid' := by
  cases hl : lookupAssoc e.users uid <;>
    simp [getOrCreateUser, hl, setUser, lookupAssoc_setAssoc_ne _ _ _ _ h]

theorem getOrCreateUser_fst_congr (e e' : Engine) (uid : String) (c : ℚ)
    (h : lookupAssoc e.users uid = lookupAssoc e'.users uid) :
    (getOrCreateUser e uid c).1 = (getOrCreateUser e' uid c).1 := by
  unfold getOrCreateUser
  rw [h]
  cases hl : lookupAssoc e'.users uid <;> simp

theorem updateUserPortfolios_total_trades (e : Engine) (t : Trade) (fee : ℚ) :
    (updateUserPortfolios e t fee).2.total_trades = e.total_trades := by
  simp [updateUserPortfolios, setUser_total_trades, getOrCreateUser_total_trades]

theorem updateUserPortfolios_total_volume (e : Engine) (t : Trade) (fee : ℚ) :
    (updateUserPortfolios e t fee).2.total_volume = e.total_volume := by
  simp [updateUserPortfolios, setUser_total_volume, getOrCreateUser_total_volume]

theorem applyTradeSideEffects_total_trades (e : Engine) (t : Trade) :
    (applyTradeSideEffects e t).total_trades = e.total_trades := by
  simp [applyTradeSideEffects, updateUserPortfolios_total_trades]

theorem applyTradeSideEffects_total_volume (e : Engine) (t : Trade) :
    (applyTradeSideEffects e t).total_volume
      = e.total_volume + t.quantity * t.price := by
  simp [applyTradeSideEffects, updateUserPortfolios_total_volume]

theorem foldl_side_effects_total_trades (ts : List Trade) :
    ∀ e : Engine, (List.foldl applyTradeSideEffects e ts).total_trades
      = e.total_trades := by
  induction ts with
  | nil => intro e; rfl
  | cons a rest ih =>
    intro e
    rw [List.foldl_cons, ih, applyTradeSideEffects_total_trades]

theorem foldl_side_effects_total_volume (ts : List Trade) :
    ∀ e : Engine, (List.foldl applyTradeSideEffects e ts).total_volume
      = e.total_volume + (ts.map (fun t => t.quantity * t.price)).sum := by
  induction ts with
  | nil => intro e; simp
  | cons a rest ih =>
    intro e
    rw [List.foldl_cons, ih, applyTradeSideEffects_total_volume]
    simp
    ring

theorem postFill_total_trades (e : Engine) (ts : List Trade) :
    (postFill e ts).total_trades = e.total_trades + ts.length := by
  simp [postFill, foldl_side_effects_total_trades]

theorem postFill_total_volume (e : Engine) (ts : List Trade) :
    (postFill e ts).total_volume
      = e.total_volume + (ts.map (fun t => t.quantity * t.price)).sum := by
  simp [postFill, foldl_side_effects_total_volume]

theorem fillOrders_engine_total_trades (order : Order) (px : ℚ) (os : List Order) :
    ∀ (rem : ℚ) (e : Engine),
      (fillOrders order px os rem e).2.2.2.total_trades = e.total_trades := by
  induction os with
  | nil => intro rem e; rfl
  | cons o rest ih =>
    intro rem e
    by_cases h0 : rem ≤ 0
    · simp [fillOrders, h0]
    · by_cases hm : canMatch order.side px o = true
      · simp only [fillOrders, h0, hm, if_true, if_false, ite_true, ite_false]
        rw [ih]
        rfl
      · have hm' : canMatch order.side px o = false := by
          revert hm
          cases canMatch order.side px o <;> simp
        simp only [fillOrders, h0, hm', if_false, ite_false, Bool.false_eq_true]
        exact ih _ _

theorem fillOrders_engine_total_volume (order : Order) (px : ℚ) (os : List Order) :
    ∀ (rem : ℚ) (e : Engine),
      (fillOrders order px os rem e).2.2.2.total_volume = e.total_volume := by
  induction os with
  | nil => intro rem e; rfl
  | cons o rest ih =>
    intro rem e
    by_cases h0 : rem ≤ 0
    · simp [fillOrders, h0]
    · by_cases hm : canMatch order.side px o = true
      · simp only [fillOrders, h0, hm, if_true, if_false, ite_true, ite_false]
        rw [ih]
        rfl
      · have hm' : canMatch order.side px o = false := by
          revert hm
          cases canMatch order.side px o <;> simp
        simp only [fillOrders, h0, hm', if_false, ite_false, Bool.false_eq_true]
        exact ih _ _

theorem fillLevels_engine_total_trades (order : Order) (px : ℚ)
    (ls : List (ℚ × List Order)) :
    ∀ (rem : ℚ) (e : Engine),
      (fillLevels order px ls rem e).2.2.2.total_trades = e.total_trades := by
  induction ls with
  | nil => intro rem e; rfl
  | cons lv rest ih =>
    intro rem e
    cases lv with
    | mk p os =>
      simp only [fillLevels]
      rw [ih, fillOrders_engine_total_trades]

theorem fillLevels_engine_total_volume (order : Order) (px : ℚ)
    (ls : List (ℚ × List Order)) :
    ∀ (rem : ℚ) (e : Engine),
      (fillLevels order px ls rem e).2.2.2.total_volume = e.total_volume := by
  induction ls with
  | nil => intro rem e; rfl
  | cons lv rest ih =>
    intro rem e
    cases lv with
    | mk p os =>
      simp only [fillLevels]
      rw [ih, fillOrders_engine_total_volume]

theorem fillOrders_engine_indep (order : Order) (px : ℚ) (os : List Order) :
    ∀ (rem : ℚ) (e e' : Engine),
      (fillOrders order px os rem e).2.1 = (fillOrders order px os rem e').2.1 ∧
      (fillOrders order px os rem e).2.2.1 = (fillOrders order px os rem e').2.2.1 := by
  induction os with
  | nil => intro rem e e'; exact ⟨rfl, rfl⟩
  | cons o rest ih =>
    intro rem e e'
    by_cases h0 : rem ≤ 0
    · simp [fillOrders, h0]
    · by_cases hm : canMatch order.side px o = true
      · simp only [fillOrders, h0, hm, if_true, if_false, ite_true, ite_false]
        obtain ⟨h1, h2⟩ := ih (rem - (if o.quantity < rem then o.quantity else rem))
          (createTrade e (if order.side = OrderSide.BUY then order else o)
            (if order.side = OrderSide.SELL then order else o)
            (if o.quantity < rem then o.quantity else rem) px).2
          (createTrade e' (if order.side = OrderSide.BUY then order else o)
            (if order.side = OrderSide.SELL then order else o)
            (if o.quantity < rem then o.quantity else rem) px).2
        exact ⟨by rw [h1], h2⟩
      · have hm' : canMatch order.side px o = false := by
          revert hm
          cases canMatch order.side px o <;> simp
        simp only [fillOrders, h0, hm', if_false, ite_false, Bool.false_eq_true]
        obtain ⟨h1, h2⟩ := ih rem e e'
        exact ⟨by rw [h1], h2⟩

theorem fillLevels_engine_indep (order : Order) (px : ℚ)
    (ls : List (ℚ × List Order)) :
    ∀ (rem : ℚ) (e e' : Engine),
      (fillLevels order px ls rem e).2.1 = (fillLevels order px ls rem e').2.1 := by
  induction ls with
  | nil => intro rem e e'; rfl
  | cons lv rest ih =>
    intro rem e e'
    cases lv with
    | mk p os =>
      simp only [fillLevels]
      obtain ⟨h1, h2⟩ := fillOrders_engine_indep order px os rem e e'
      rw [h1, h2]
      rw [ih]

/-- C6: `updateUserPortfolios` applies the buyer's BUY leg and the
seller's SELL leg independently: for distinct parties, the stored seller
state is always the SELL leg applied to the seller's prior state — whether
or not the buyer's leg succeeded — and symmetrically for the buyer; the
returned flag is the conjunction of the two leg results; the function
touches neither `total_trades_` nor `total_volume_`; and at the engine
level, `matchMarketOrder` commits its counter increments and its book
mutations irrespective of the engine's user state (so a failed leg rolls
back nothing). -/
theorem portfolio_legs_independent (e : Engine) (t : Trade) (fee : ℚ)
    (hne : t.buy_user_id ≠ t.sell_user_id) :
    ((updateUserPortfolios e t fee).1
      = ((applyExecution (getOrCreateUser e t.buy_user_id 0).1 OrderSide.BUY
            t.symbol t.quantity t.price fee).1
         && (applyExecution (getOrCreateUser e t.sell_user_id 0).1 OrderSide.SELL
            t.symbol t.quantity t.price fee).1)) ∧
    lookupAssoc (updateUserPortfolios e t fee).2.users t.sell_user_id
      = some (applyExecution (getOrCreateUser e t.sell_user_id 0).1 OrderSide.SELL
          t.symbol t.quantity t.price fee).2 ∧
    lookupAssoc (updateUserPortfolios e t fee).2.users t.buy_user_id
      = some (applyExecution (getOrCreateUser e t.buy_user_id 0).1 OrderSide.BUY
          t.symbol t.quantity t.price fee).2 ∧
    (updateUserPortfolios e t fee).2.total_trades = e.total_trades ∧
    (updateUserPortfolios e t fee).2.total_volume = e.total_volume ∧
    (∀ (order : Order) (book : OrderBook),
      (matchMarketOrder order book e).2.2.total_trades
        = e.total_trades + ((matchMarketOrder order book e).1).length ∧
      (matchMarketOrder order book e).2.2.total_volume
        = e.total_volume
          + (((matchMarketOrder order book e).1).map
              (fun tr => tr.quantity * tr.price)).sum ∧
      ∀ e' : Engine,
        (matchMarketOrder order book e).2.1 = (matchMarketOrder order book e').2.1) := by
  have hnesymm : t.sell_user_id ≠ t.buy_user_id := Ne.symm hne
  have hlook : lookupAssoc (setUser (getOrCreateUser e t.buy_user_id 0).2 t.buy_user_id
      (applyExecution (getOrCreateUser e t.buy_user_id 0).1 OrderSide.BUY
        t.symbol t.quantity t.price fee).2).users t.sell_user_id
      = lookupAssoc e.users t.sell_user_id := by
    rw [setUser_users, lookupAssoc_setAssoc_ne _ _ _ _ hnesymm,
        getOrCreateUser_users_ne e t.buy_user_id 0 t.sell_user_id hnesymm]
  have hsfst : (getOrCreateUser (setUser (getOrCreateUser e t.buy_user_id 0).2
      t.buy_user_id
      (applyExecution (getOrCreateUser e t.buy_user_id 0).1 OrderSide.BUY
        t.symbol t.quantity t.price fee).2) t.sell_user_id 0).1
      = (getOrCreateUser e t.sell_user_id 0).1 :=
    getOrCreateUser_fst_congr _ _ _ _ hlook
  refine ⟨?_, ?_, ?_, updateUserPortfolios_total_trades e t fee,
    updateUserPortfolios_total_volume e t fee, ?_⟩
  · simp only [updateUserPortfolios]
    rw [hsfst]
  · simp only [updateUserPortfolios]
    rw [setUser_users, lookupAssoc_setAssoc_self, hsfst]
  · simp only [updateUserPortfolios]
    rw [setUser_users, lookupAssoc_setAssoc_ne _ _ _ _ hne,
        getOrCreateUser_users_ne _ _ _ _ hne, setUser_users,
        lookupAssoc_setAssoc_self]
  · intro order book
    refine ⟨?_, ?_, ?_⟩
    · simp only [matchMarketOrder]
      rw [postFill_total_trades, fillLevels_engine_total_trades]
    · simp only [matchMarketOrder]
      rw [postFill_total_volume, fillLevels_engine_total_volume]
    · intro e'
      simp only [matchMarketOrder]
      rw [fillLevels_engine_indep order (capturedPrice order book)
        (oppositeSide order book) order.quantity e e']

/-- C6 witness: the independent-legs theorem applied at `tr1` on a fresh
engine, the distinct-parties hypothesis discharged by evaluation. -/
theorem portfolio_legs_independent_witness :
    ((updateUserPortfolios e0 tr1 0).1
      = ((applyExecution (getOrCreateUser e0 tr1.buy_user_id 0).1 OrderSide.BUY
            tr1.symbol tr1.quantity tr1.price 0).1
         && (applyExecution (getOrCreateUser e0 tr1.sell_user_id 0).1 OrderSide.SELL
            tr1.symbol tr1.quantity tr1.price 0).1)) ∧
    lookupAssoc (updateUserPortfolios e0 tr1 0).2.users tr1.sell_user_id
      = some (applyExecution (getOrCreateUser e0 tr1.sell_user_id 0).1 OrderSide.SELL
          tr1.symbol tr1.quantity tr1.price 0).2 ∧
    lookupAssoc (updateUserPortfolios e0 tr1 0).2.users tr1.buy_user_id
      = some (applyExecution (getOrCreateUser e0 tr1.buy_user_id 0).1 OrderSide.BUY
          tr1.symbol tr1.quantity tr1.price 0).2 ∧
    (updateUserPortfolios e0 tr1 0).2.total_trades = e0.total_trades ∧
    (updateUserPortfolios e0 tr1 0).2.total_volume = e0.total_volume ∧
    (∀ (order : Order) (book : OrderBook),
      (matchMarketOrder order book e0).2.2.total_trades
        = e0.total_trades + ((matchMarketOrder order book e0).1).length ∧
      (matchMarketOrder order book e0).2.2.total_volume
        = e0.total_volume
          + (((matchMarketOrder order book e0).1).map
              (fun tr => tr.quantity * tr.price)).sum ∧
      ∀ e' : Engine,
        (matchMarketOrder order book e0).2.1 = (matchMarketOrder order book e').2.1) :=
  portfolio_legs_independent e0 tr1 0 (by decide)

end Trading
